import Mathlib

/-!
Shallow embedding of `src/product-service.js` (HACOO-SpreadSheet):
the `ProductService` class — cached, retrying product fetches; the
seeded Fisher–Yates shuffle used by the synthetic "Hot" category;
validation of upstream records; FIFO-bounded cache; error
classification.

Modelling conventions:
* A JS `Map` is an association list in insertion order; `Map.set` on an
  existing key overwrites in place (keeping the key's position),
  otherwise appends; `Map.delete` removes the (unique) entry with the
  key; `Map.keys().next().value` is the head key.
* `Date.now()` is passed in as an explicit integer parameter `now`;
  all reads of the clock inside a single call see the same `now`.
* The network (`fetch` + `response.json()` inside the `try` of
  `fetchWithRetry`) is an oracle `u : String → Nat → Except JsError
  (List ProductRecord)` giving, per endpoint and per attempt index, the
  parsed body or the raised error.  URL construction is an injective
  renaming of the endpoint and is elided.
* `Math.sin(c) * 10000` followed by `x - Math.floor(x)` yields a value
  in `[0, 1)`; the stream is modelled as a parameter
  `frac : Int → ℚ` (counter ↦ draw).
* The recursion of `fetchWithRetry` is bounded by
  `RETRY_COUNT - retryCount`; we recurse structurally on that budget,
  which coincides with the source's `retryCount < RETRY_COUNT` test.
-/

/-- A raw upstream product record: the six alias fields checked by the
validator, plus the untouched remainder of the object. -/
structure ProductRecord where
  title_clean : Option String
  spbt : Option String
  media_urls : Option String
  ztURL : Option String
  converted_link : Option String
  spURL : Option String
  extra : List (String × String)
deriving DecidableEq

/-- A JS error value: its `name` and `message`. -/
structure JsError where
  name : String
  message : String
deriving DecidableEq

/-- `CONFIG.ERROR_MESSAGES`. -/
structure ErrorMessages where
  TIMEOUT_ERROR : String
  NETWORK_ERROR : String
  LOADING_ERROR : String
deriving DecidableEq

/-- One entry of `CONFIG.categories`. -/
structure Category where
  name : String
  endpoint : String
deriving DecidableEq

/-- The configuration fields read by the product service. -/
structure Config where
  cacheEnabled : Bool
  expiryTime : Int
  maxSize : Nat
  retryCount : Nat
  retryDelay : Nat
  categories : List Category
  msgs : ErrorMessages

/-- A cache entry: `{ data, timestamp }` as stored by `updateCache`. -/
structure CacheEntry where
  data : List ProductRecord
  timestamp : Int
deriving DecidableEq

/-- `this.cache`: a JS `Map` in insertion order. -/
abbrev Cache := List (String × CacheEntry)

/-- `cache.get(key)` (also covers `cache.has(key)` via `isSome`). -/
def mapGet (c : Cache) (k : String) : Option CacheEntry :=
  (c.find? (fun p => p.1 == k)).map Prod.snd

/-- `cache.has(key)`. -/
def mapHas (c : Cache) (k : String) : Bool :=
  c.any (fun p => p.1 == k)

/-- `cache.delete(key)`: remove the entry with that key. -/
def mapDelete (c : Cache) (k : String) : Cache :=
  c.eraseP (fun p => p.1 == k)

/-- `cache.set(key, v)`: overwrite in place if present, else append. -/
def mapSet (c : Cache) (k : String) (v : CacheEntry) : Cache :=
  if mapHas c k then c.map (fun p => if p.1 == k then (k, v) else p)
  else c ++ [(k, v)]

/-- `cache.keys().next().value`: the earliest-inserted key. -/
def firstKey (c : Cache) : Option String :=
  c.head?.map Prod.fst

/-- `updateCache(key, data)`: evict the earliest-inserted entry when at
or above `MAX_SIZE`, then store `{ data, timestamp: now }`. -/
def updateCache (cfg : Config) (now : Int) (c : Cache) (key : String)
    (data : List ProductRecord) : Cache :=
  let c1 :=
    if cfg.maxSize ≤ c.length then
      match firstKey c with
      | some fk => mapDelete c fk
      | none => c
    else c
  mapSet c1 key ⟨data, now⟩

/-- The keys of the cache, in insertion order. -/
def cacheKeys (c : Cache) : List String := c.map Prod.fst

/-- Replay a sequence of `updateCache` operations (key, data, time)
starting from a given cache. -/
def applyPuts (cfg : Config) : List (String × List ProductRecord × Int) → Cache → Cache
  | [], c => c
  | (k, d, t) :: rest, c => applyPuts cfg rest (updateCache cfg t c k d)

-- Basic lemmas about the Map model -----------------------------------------

theorem mapHas_iff_mem_keys (c : Cache) (k : String) :
    mapHas c k = true ↔ k ∈ cacheKeys c := by
  simp [mapHas, cacheKeys, List.any_eq_true, beq_iff_eq, List.mem_map]

theorem length_mapSet (c : Cache) (k : String) (v : CacheEntry) :
    (mapSet c k v).length = if mapHas c k then c.length else c.length + 1 := by
  unfold mapSet
  by_cases h : mapHas c k <;> simp [h]

theorem cacheKeys_mapSet_of_has (c : Cache) (k : String) (v : CacheEntry)
    (h : mapHas c k = true) : cacheKeys (mapSet c k v) = cacheKeys c := by
  unfold mapSet cacheKeys
  rw [if_pos h, List.map_map]
  apply List.map_congr_left
  intro p _
  by_cases hpk : p.1 = k <;> simp [Function.comp, hpk]

theorem cacheKeys_mapSet_of_not_has (c : Cache) (k : String) (v : CacheEntry)
    (h : ¬ mapHas c k = true) : cacheKeys (mapSet c k v) = cacheKeys c ++ [k] := by
  unfold mapSet
  rw [if_neg h]
  simp [cacheKeys]

theorem mapDelete_cons_self (p : String × CacheEntry) (rest : Cache) :
    mapDelete (p :: rest) p.1 = rest := by
  unfold mapDelete
  rw [List.eraseP_cons_of_pos]
  simp

theorem nodup_cacheKeys_mapDelete (c : Cache) (k : String)
    (h : (cacheKeys c).Nodup) : (cacheKeys (mapDelete c k)).Nodup := by
  have hsub : List.Sublist (mapDelete c k) c := List.eraseP_sublist c
  exact (hsub.map Prod.fst).nodup h

theorem nodup_cacheKeys_mapSet (c : Cache) (k : String) (v : CacheEntry)
    (h : (cacheKeys c).Nodup) : (cacheKeys (mapSet c k v)).Nodup := by
  by_cases hk : mapHas c k
  · rw [cacheKeys_mapSet_of_has c k v hk]; exact h
  · rw [cacheKeys_mapSet_of_not_has c k v hk]
    have : k ∉ cacheKeys c := fun hm => hk ((mapHas_iff_mem_keys c k).mpr hm)
    simp [List.nodup_append, h, this]

theorem find?_overwrite_ne (c : Cache) (k : String) (v : CacheEntry) (y : String)
    (hy : y ≠ k) :
    (c.map (fun p => if p.1 == k then (k, v) else p)).find? (fun p => p.1 == y)
      = c.find? (fun p => p.1 == y) := by
  induction c with
  | nil => rfl
  | cons p rest ih =>
    simp only [List.map_cons]
    by_cases hp : p.1 = k
    · have h1 : (((k, v) : String × CacheEntry).1 == y) = false := by
        simp [Ne.symm hy]
      have h2 : (p.1 == y) = false := by simp [hp, Ne.symm hy]
      rw [if_pos (by simp [hp]), List.find?_cons_of_neg _ (by simp [h1]),
        List.find?_cons_of_neg _ (by simp [h2]), ih]
    · rw [if_neg (by simp [hp])]
      by_cases hpy : p.1 = y
      · rw [List.find?_cons_of_pos _ (by simp [hpy]),
          List.find?_cons_of_pos _ (by simp [hpy])]
      · rw [List.find?_cons_of_neg _ (by simp [hpy]),
          List.find?_cons_of_neg _ (by simp [hpy]), ih]

theorem mapGet_mapSet_ne (c : Cache) (k : String) (v : CacheEntry) (y : String)
    (hy : y ≠ k) : mapGet (mapSet c k v) y = mapGet c y := by
  unfold mapSet mapGet
  by_cases h : mapHas c k
  · rw [if_pos h, find?_overwrite_ne c k v y hy]
  · rw [if_neg h, List.find?_append]
    have : (([(k, v)] : Cache).find? (fun p => p.1 == y)) = none := by
      rw [List.find?_cons_of_neg _ (by simp [Ne.symm hy])]
      rfl
    rw [this]
    cases c.find? (fun p => p.1 == y) <;> simp [Option.orElse]

theorem find?_overwrite_self (c : Cache) (k : String) (v : CacheEntry) :
    (c.map (fun p => if p.1 == k then (k, v) else p)).find? (fun p => p.1 == k)
      = if mapHas c k then some (k, v) else none := by
  induction c with
  | nil => rfl
  | cons p rest ih =>
    simp only [List.map_cons]
    by_cases hp : p.1 = k
    · rw [if_pos (by simp [hp]), List.find?_cons_of_pos _ (by simp),
        if_pos (by simp [mapHas, hp])]
    · rw [if_neg (by simp [hp]), List.find?_cons_of_neg _ (by simp [hp]), ih]
      have : mapHas (p :: rest) k = mapHas rest k := by simp [mapHas, hp]
      rw [this]

theorem find?_eq_none_of_not_has (c : Cache) (k : String)
    (h : ¬ mapHas c k = true) : c.find? (fun p => p.1 == k) = none := by
  apply List.find?_eq_none.mpr
  intro p hp hpk
  exact h ((List.any_eq_true).mpr ⟨p, hp, hpk⟩)

theorem mapGet_mapSet_self (c : Cache) (k : String) (v : CacheEntry) :
    mapGet (mapSet c k v) k = some v := by
  unfold mapSet mapGet
  by_cases h : mapHas c k
  · rw [if_pos h, find?_overwrite_self c k v, if_pos h]
    rfl
  · rw [if_neg h, List.find?_append, find?_eq_none_of_not_has c k h]
    simp [List.find?, Option.orElse]

theorem mapGet_mapDelete_ne (c : Cache) (k y : String) (hy : y ≠ k) :
    mapGet (mapDelete c k) y = mapGet c y := by
  unfold mapDelete mapGet
  induction c with
  | nil => rfl
  | cons p rest ih =>
    by_cases hp : p.1 = k
    · rw [List.eraseP_cons_of_pos (by simp [hp]),
        List.find?_cons_of_neg _ (by simp [hp, Ne.symm hy])]
    · rw [List.eraseP_cons_of_neg (by simp [hp])]
      by_cases hpy : p.1 = y
      · rw [List.find?_cons_of_pos _ (by simp [hpy]),
          List.find?_cons_of_pos _ (by simp [hpy])]
      · rw [List.find?_cons_of_neg _ (by simp [hpy]),
          List.find?_cons_of_neg _ (by simp [hpy]), ih]

theorem mapGet_mapDelete_self (c : Cache) (k : String)
    (h : (cacheKeys c).Nodup) : mapGet (mapDelete c k) k = none := by
  unfold mapDelete mapGet
  induction c with
  | nil => rfl
  | cons p rest ih =>
    simp only [cacheKeys, List.map_cons, List.nodup_cons] at h
    by_cases hp : p.1 = k
    · rw [List.eraseP_cons_of_pos (by simp [hp])]
      have : rest.find? (fun q => q.1 == k) = none := by
        apply List.find?_eq_none.mpr
        intro q hq hqk
        exact h.1 (by
          rw [← hp] at hqk
          simp only [beq_iff_eq] at hqk
          exact hqk ▸ List.mem_map_of_mem Prod.fst hq)
      rw [this]
      rfl
    · rw [List.eraseP_cons_of_neg (by simp [hp]),
        List.find?_cons_of_neg _ (by simp [hp]), ih h.2]

theorem nodup_cacheKeys_updateCache (cfg : Config) (now : Int) (c : Cache)
    (k : String) (d : List ProductRecord) (h : (cacheKeys c).Nodup) :
    (cacheKeys (updateCache cfg now c k d)).Nodup := by
  unfold updateCache
  by_cases hc : cfg.maxSize ≤ c.length
  · rw [if_pos hc]
    cases hfk : firstKey c with
    | none => exact nodup_cacheKeys_mapSet _ _ _ h
    | some fk => exact nodup_cacheKeys_mapSet _ _ _ (nodup_cacheKeys_mapDelete _ _ h)
  · rw [if_neg hc]
    exact nodup_cacheKeys_mapSet _ _ _ h

/-- The cache-freshness check at the top of `fetchProducts`:
`CONFIG.CACHE.ENABLED && cache.has(key)` and then
`Date.now() - cached.timestamp < CONFIG.CACHE.EXPIRY_TIME`. -/
def cacheLookupFresh (cfg : Config) (now : Int) (c : Cache) (key : String) :
    Option (List ProductRecord) :=
  if cfg.cacheEnabled then
    match mapGet c key with
    | some e => if now - e.timestamp < cfg.expiryTime then some e.data else none
    | none => none
  else none

theorem cacheLookupFresh_updateCache_ne (cfg : Config) (now now' : Int)
    (c : Cache) (k : String) (d : List ProductRecord) (y : String)
    (hnd : (cacheKeys c).Nodup) (hy : y ≠ k)
    (h : cacheLookupFresh cfg now c y = none) :
    cacheLookupFresh cfg now (updateCache cfg now' c k d) y = none := by
  unfold cacheLookupFresh at h ⊢
  by_cases hen : cfg.cacheEnabled
  · rw [if_pos hen] at h ⊢
    have hget : mapGet (updateCache cfg now' c k d) y = none ∨
        mapGet (updateCache cfg now' c k d) y = mapGet c y := by
      unfold updateCache
      by_cases hc : cfg.maxSize ≤ c.length
      · rw [if_pos hc]
        cases hfk : firstKey c with
        | none => exact Or.inr (mapGet_mapSet_ne _ _ _ _ hy)
        | some fk =>
          by_cases hfky : fk = y
          · subst hfky
            rw [mapGet_mapSet_ne _ _ _ _ hy]
            exact Or.inl (mapGet_mapDelete_self c fk hnd)
          · rw [mapGet_mapSet_ne _ _ _ _ hy,
              mapGet_mapDelete_ne c fk y (fun hyy => hfky hyy.symm)]
            exact Or.inr rfl
      · rw [if_neg hc]
        exact Or.inr (mapGet_mapSet_ne _ _ _ _ hy)
    rcases hget with hg | hg
    · rw [hg]
    · rw [hg]
      exact h
  · rw [if_neg hen]

-- Validator -----------------------------------------------------------------

/-- JS truthiness of a record field holding a string: present and
non-empty (the only falsy string is `""`). -/
def truthy : Option String → Bool
  | none => false
  | some s => !s.isEmpty

/-- The validity predicate applied inline in `fetchProducts`:
`(title_clean || spbt) && (media_urls || ztURL) && (converted_link || spURL)`. -/
def isValidRecord (p : ProductRecord) : Bool :=
  (truthy p.title_clean || truthy p.spbt) &&
  (truthy p.media_urls || truthy p.ztURL) &&
  (truthy p.converted_link || truthy p.spURL)

/-- `data.filter(product => ...)`: the validation step. -/
def filterValid (l : List ProductRecord) : List ProductRecord :=
  l.filter isValidRecord

-- Error classification ------------------------------------------------------

/-- `error.message.includes('Failed to fetch')`. -/
def msgContains (hay needle : String) : Bool :=
  decide (List.IsInfix needle.data hay.data)

/-- `handleError(error)`: map a raised failure to a fresh `Error` whose
message is one of the three configured strings. -/
def handleError (msgs : ErrorMessages) (e : JsError) : JsError :=
  if e.name = "AbortError" then ⟨"Error", msgs.TIMEOUT_ERROR⟩
  else if msgContains e.message "Failed to fetch" then ⟨"Error", msgs.NETWORK_ERROR⟩
  else ⟨"Error", msgs.LOADING_ERROR⟩

/-- The three user-facing kinds of §4.7, read off from the checks of
`handleError` in their order. -/
inductive ErrKind | timeout | network | loading
deriving DecidableEq

/-- Which of the three ordered checks of `handleError` fires. -/
def classifyError (e : JsError) : ErrKind :=
  if e.name = "AbortError" then .timeout
  else if msgContains e.message "Failed to fetch" then .network
  else .loading

-- Seeded Fisher-Yates shuffle ----------------------------------------------

/-- The destructuring swap
`[shuffled[i], shuffled[j]] = [shuffled[j], shuffled[i]]`; a no-op when
an index is out of range (never reached with in-range draws). -/
def swapL {α : Type _} (l : List α) (i j : Nat) : List α :=
  if h : i < l.length ∧ j < l.length then
    (l.set i (l.get ⟨j, h.2⟩)).set j (l.get ⟨i, h.1⟩)
  else l

/-- The backward Fisher-Yates loop of `seededShuffle`.  The PRNG draw at
counter `c` is `frac c` — modelling `frac(Math.sin(c) * 10000)`, always
in `[0,1)` — and the counter increments once per draw.  The first
argument is the loop index `i` (the loop body runs while `i > 0`). -/
def fyLoop {α : Type _} (frac : Int → ℚ) : Nat → Int → List α → List α
  | 0, _, l => l
  | k + 1, c, l =>
    let i : Nat := k + 1
    let j : Nat := (Rat.floor (frac c * ((i : ℚ) + 1))).toNat
    fyLoop frac k (c + 1) (swapL l i j)

/-- `seededShuffle(array, seed)`: copy the array (the model's lists are
values, so the caller's list is untouched by construction) and run the
Fisher-Yates pass from index `length - 1` down to `1`, with the PRNG
counter starting at `seed`. -/
def seededShuffle {α : Type _} (frac : Int → ℚ) (array : List α) (seed : Int) :
    List α :=
  fyLoop frac (array.length - 1) seed array

theorem swapL_perm {α : Type _} (l : List α) (i j : Nat) :
    (swapL l i j).Perm l := by
  unfold swapL
  split
  case isFalse h => exact List.Perm.refl l
  case isTrue h =>
    obtain ⟨hi, hj⟩ := h
    have key : (l.set i (l.get ⟨j, hj⟩)).set j (l.get ⟨i, hi⟩)
        = List.ofFn (fun k => l.get (Equiv.swap ⟨i, hi⟩ ⟨j, hj⟩ k)) := by
      apply List.ext_getElem
      · simp
      · intro n h1 h2
        have hn : n < l.length := by simpa using h1
        rw [List.getElem_ofFn]
        simp only [List.getElem_set, Equiv.swap_apply_def, Fin.ext_iff,
          List.get_eq_getElem, Fin.val_mk]
        by_cases hni : n = i
        · by_cases hnj : n = j
          · have hij : i = j := hni.symm.trans hnj
            simp [hni, hnj, hij]
          · simp only [hni, hnj]
            simp only [if_true, if_pos rfl]
            rcases eq_or_ne j i with h | h <;> simp [h]
        · by_cases hnj : n = j
          · simp only [hni, hnj]
            simp
            rcases eq_or_ne j i with h | h <;> simp [h]
          · simp [hni, hnj, Ne.symm hni, Ne.symm hnj]
    rw [key]
    have hperm := Equiv.Perm.ofFn_comp_perm (Equiv.swap ⟨i, hi⟩ ⟨j, hj⟩) l.get
    have : List.ofFn (l.get ∘ Equiv.swap ⟨i, hi⟩ ⟨j, hj⟩)
        = List.ofFn (fun k => l.get (Equiv.swap ⟨i, hi⟩ ⟨j, hj⟩ k)) := rfl
    rw [this] at hperm
    exact hperm.trans (by rw [List.ofFn_get])

theorem fyLoop_perm {α : Type _} (frac : Int → ℚ) :
    ∀ (k : Nat) (c : Int) (l : List α), (fyLoop frac k c l).Perm l := by
  intro k
  induction k with
  | zero => intro c l; exact List.Perm.refl l
  | succ k ih =>
    intro c l
    exact (ih (c + 1) _).trans (swapL_perm l (k + 1) _)

theorem seededShuffle_perm {α : Type _} (frac : Int → ℚ) (array : List α)
    (seed : Int) : (seededShuffle frac array seed).Perm array :=
  fyLoop_perm frac (array.length - 1) seed array

-- Retry ----------------------------------------------------------------------

/-- Outcome of `fetchWithRetry`: the propagated result, the total number
of upstream attempts issued, and the backoff delays awaited (in order). -/
structure RetryResult where
  result : Except JsError (List ProductRecord)
  attempts : Nat
  delays : List Nat

/-- The recursion of `fetchWithRetry`, made structural on the remaining
retry budget `RETRY_COUNT - retryCount`: the budget is `0` exactly when
the source's `retryCount < CONFIG.API.RETRY_COUNT` test is false.  On a
failed attempt with budget left, wait `RETRY_DELAY * (retryCount + 1)`
and retry with `retryCount + 1`; otherwise propagate the failure as-is. -/
def fwrGo (cfg : Config) (u : Nat → Except JsError (List ProductRecord)) :
    Nat → Nat → RetryResult
  | 0, r =>
    match u r with
    | Except.ok d => ⟨Except.ok d, 1, []⟩
    | Except.error e => ⟨Except.error e, 1, []⟩
  | fuel + 1, r =>
    match u r with
    | Except.ok d => ⟨Except.ok d, 1, []⟩
    | Except.error _ =>
      let rr := fwrGo cfg u fuel (r + 1)
      ⟨rr.result, rr.attempts + 1, cfg.retryDelay * (r + 1) :: rr.delays⟩

/-- `fetchWithRetry(url, retryCount)`, with the upstream for the fixed
url abstracted as `u : attempt index → parsed body or raised error`. -/
def fetchWithRetry (cfg : Config) (u : Nat → Except JsError (List ProductRecord))
    (retryCount : Nat) : RetryResult :=
  fwrGo cfg u (cfg.retryCount - retryCount) retryCount

-- ProductService -------------------------------------------------------------

/-- Outcome of one `fetchProducts` call: the returned value or raised
(classified) error, the cache afterwards, and the number of upstream
attempts issued. -/
structure FPResult where
  result : Except JsError (List ProductRecord)
  cache : Cache
  netAttempts : Nat

/-- The non-"Hot" arm of `fetchProducts` (including the cache check at
the top): on a fresh cache hit return the cached data; otherwise call
`fetchWithRetry`, filter the parsed body, cache the valid records when
caching is enabled, and return them; a propagated failure is re-raised
through `handleError`. -/
def fetchCategory (cfg : Config)
    (u : String → Nat → Except JsError (List ProductRecord))
    (now : Int) (c : Cache) (endpoint : String) : FPResult :=
  match cacheLookupFresh cfg now c endpoint with
  | some d => ⟨Except.ok d, c, 0⟩
  | none =>
    let r := fetchWithRetry cfg (u endpoint) 0
    match r.result with
    | Except.ok data =>
      let validProducts := filterValid data
      ⟨Except.ok validProducts,
        (if cfg.cacheEnabled then updateCache cfg now c endpoint validProducts
         else c),
        r.attempts⟩
    | Except.error e => ⟨Except.error (handleError cfg.msgs e), c, r.attempts⟩

/-- `CONFIG.categories.filter(c => c.name !== 'Hot').map(c => c.endpoint)`. -/
def otherCategories (cfg : Config) : List String :=
  (cfg.categories.filter (fun cat => cat.name != "Hot")).map Category.endpoint

/-- Outcome of the Hot fan-out: the per-category result lists (in the
configured category order), the cache afterwards, and the number of
upstream attempts issued. -/
structure FanoutResult where
  results : List (List ProductRecord)
  cache : Cache
  attempts : Nat

/-- The fan-out of `fetchHotProducts`:
`otherCategories.map(endpoint => this.fetchProducts(endpoint).catch(err => []))`,
then `Promise.all`.  In the source each sub-fetch goes through
`fetchProducts`; for a sub-endpoint different from `"Hot"` that call is
exactly the non-"Hot" arm `fetchCategory` (a sub-endpoint equal to
`"Hot"` would recurse without bound in the source, so theorems about
this model assume sub-endpoints differ from `"Hot"`).  The sub-fetches
run under single-threaded cooperative scheduling; the model sequences
them in category order, threading the shared cache. -/
def hotFanout (cfg : Config)
    (u : String → Nat → Except JsError (List ProductRecord)) (now : Int) :
    Cache → List String → FanoutResult
  | c, [] => ⟨[], c, 0⟩
  | c, e :: es =>
    let r := fetchCategory cfg u now c e
    let contrib :=
      match r.result with
      | Except.ok l => l
      | Except.error _ => []
    let rest := hotFanout cfg u now r.cache es
    ⟨contrib :: rest.results, rest.cache, r.netAttempts + rest.attempts⟩

/-- Outcome of `fetchHotProducts`. -/
structure HotResult where
  data : List ProductRecord
  cache : Cache
  attempts : Nat

/-- The 3-day seed window: `3 * 24 * 60 * 60 * 1000` ms. -/
def WINDOW_MS : Int := 259200000

/-- `fetchHotProducts()`: seed from the current 3-day bucket, fan out
over all non-"Hot" categories (failures contribute `[]`), flatten the
results in category order, and shuffle with the seed. -/
def fetchHotProducts (cfg : Config) (frac : Int → ℚ)
    (u : String → Nat → Except JsError (List ProductRecord))
    (now : Int) (c : Cache) : HotResult :=
  let seed : Int := Int.fdiv now WINDOW_MS
  let others := otherCategories cfg
  if others.isEmpty then ⟨[], c, 0⟩
  else
    let f := hotFanout cfg u now c others
    ⟨seededShuffle frac f.results.flatten seed, f.cache, f.attempts⟩

/-- `fetchProducts(endpoint)`: fresh-cache short-circuit, then either
the Hot aggregation (whose result is cached and returned — the `catch`
arm is unreachable since the aggregation absorbs all sub-failures) or
the direct-category path. -/
def fetchProducts (cfg : Config) (frac : Int → ℚ)
    (u : String → Nat → Except JsError (List ProductRecord))
    (now : Int) (c : Cache) (endpoint : String) : FPResult :=
  match cacheLookupFresh cfg now c endpoint with
  | some d => ⟨Except.ok d, c, 0⟩
  | none =>
    if endpoint = "Hot" then
      let hot := fetchHotProducts cfg frac u now c
      ⟨Except.ok hot.data,
        (if cfg.cacheEnabled then updateCache cfg now hot.cache "Hot" hot.data
         else hot.cache),
        hot.attempts⟩
    else fetchCategory cfg u now c endpoint

-- Further helper lemmas ------------------------------------------------------

theorem seededShuffle_nil {α : Type _} (frac : Int → ℚ) (seed : Int) :
    seededShuffle frac ([] : List α) seed = [] := rfl

theorem handleError_eq (msgs : ErrorMessages) (e : JsError) :
    handleError msgs e =
      ⟨"Error",
        match classifyError e with
        | ErrKind.timeout => msgs.TIMEOUT_ERROR
        | ErrKind.network => msgs.NETWORK_ERROR
        | ErrKind.loading => msgs.LOADING_ERROR⟩ := by
  unfold handleError classifyError
  by_cases h1 : e.name = "AbortError" <;>
    by_cases h2 : msgContains e.message "Failed to fetch" <;> simp [h1, h2]

theorem fwrGo_allfail (cfg : Config)
    (u : Nat → Except JsError (List ProductRecord)) (errs : Nat → JsError)
    (hu : ∀ k, u k = Except.error (errs k)) :
    ∀ (fuel r : Nat),
      fwrGo cfg u fuel r =
        ⟨Except.error (errs (r + fuel)), fuel + 1,
          (List.range fuel).map (fun k => cfg.retryDelay * (r + k + 1))⟩ := by
  intro fuel
  induction fuel with
  | zero =>
    intro r
    unfold fwrGo
    rw [hu r]
    simp
  | succ f ih =>
    intro r
    unfold fwrGo
    rw [hu r]
    simp only [ih (r + 1), List.range_succ_eq_map, List.map_cons, List.map_map]
    refine congrArg₂ (fun a b => RetryResult.mk a (f + 1 + 1) b) ?_ ?_
    · have : r + 1 + f = r + (f + 1) := by omega
      rw [this]
    · rw [List.cons.injEq]
      constructor
      · have : r + 0 + 1 = r + 1 := by omega
        rw [this]
      · apply List.map_congr_left
        intro k _
        simp only [Function.comp]
        have : r + 1 + k + 1 = r + (k + 1) + 1 := by omega
        rw [this]

theorem one_le_fwrGo_attempts (cfg : Config)
    (u : Nat → Except JsError (List ProductRecord)) (fuel r : Nat) :
    1 ≤ (fwrGo cfg u fuel r).attempts := by
  cases fuel <;> unfold fwrGo <;> cases u r <;> simp

theorem one_le_fetchWithRetry_attempts (cfg : Config)
    (u : Nat → Except JsError (List ProductRecord)) (r : Nat) :
    1 ≤ (fetchWithRetry cfg u r).attempts :=
  one_le_fwrGo_attempts cfg u _ r

-- Claim theorems -------------------------------------------------------------

/-- Claim C4: the validation step outputs exactly those input records
(by identity, in input order, unmodified — the output is a sublist of
the input) that have a non-empty value under at least one accepted alias
for each of the three required fields, which is the predicate
`isValidRecord`. -/
theorem c4_validator_filter (l : List ProductRecord) :
    List.Sublist (filterValid l) l ∧
    ∀ p : ProductRecord, p ∈ filterValid l ↔ p ∈ l ∧ isValidRecord p = true := by
  constructor
  · exact List.filter_sublist l
  · intro p
    simp [filterValid, List.mem_filter]

/-- Claim C6: the seeded shuffle returns a permutation of its input
(the same multiset of elements; the model's lists are immutable values
and `seededShuffle` operates on the copy `[...array]`, so the caller's
input is unchanged by construction).  This holds for every PRNG stream
`frac`, in particular for the source's `frac(sin(c)·10000)`. -/
theorem c6_shuffle_is_permutation (frac : Int → ℚ)
    (array : List ProductRecord) (seed : Int) :
    (seededShuffle frac array seed).Perm array :=
  seededShuffle_perm frac array seed

/-- Claim C7: the seeded shuffle is a pure function of `(records, seed)`
(two calls with identical arguments yield identical outputs), and since
the Hot aggregation derives its seed as `floor(now / WINDOW_MS)`, two
aggregation runs in the same 3-day bucket produce identical shuffles
given identical merged inputs. -/
theorem c7_shuffle_deterministic (frac : Int → ℚ) (cfg : Config)
    (u1 u2 : String → Nat → Except JsError (List ProductRecord))
    (t1 t2 : Int) (c1 c2 : Cache)
    (hbucket : Int.fdiv t1 WINDOW_MS = Int.fdiv t2 WINDOW_MS)
    (hinput : (hotFanout cfg u1 t1 c1 (otherCategories cfg)).results.flatten
            = (hotFanout cfg u2 t2 c2 (otherCategories cfg)).results.flatten) :
    (∀ (records : List ProductRecord) (seed : Int),
      seededShuffle frac records seed = seededShuffle frac records seed) ∧
    (fetchHotProducts cfg frac u1 t1 c1).data
      = (fetchHotProducts cfg frac u2 t2 c2).data := by
  refine ⟨fun _ _ => rfl, ?_⟩
  unfold fetchHotProducts
  by_cases h : (otherCategories cfg).isEmpty <;> simp [h, hinput, hbucket]

/-- Witness for C7 at a concrete input: times 0 and 1 fall in the same
3-day bucket and the (empty) fan-outs agree, so the aggregated shuffles
agree. -/
theorem c7_witness :
    (Int.fdiv 0 WINDOW_MS = Int.fdiv 1 WINDOW_MS ∧
      (hotFanout ⟨true, 10, 5, 0, 0, [], ⟨"T", "N", "L"⟩⟩
          (fun _ _ => Except.error ⟨"E", "m"⟩) 0 []
          (otherCategories ⟨true, 10, 5, 0, 0, [], ⟨"T", "N", "L"⟩⟩)).results.flatten
        = (hotFanout ⟨true, 10, 5, 0, 0, [], ⟨"T", "N", "L"⟩⟩
          (fun _ _ => Except.error ⟨"E", "m"⟩) 1 []
          (otherCategories ⟨true, 10, 5, 0, 0, [], ⟨"T", "N", "L"⟩⟩)).results.flatten) ∧
    (fetchHotProducts ⟨true, 10, 5, 0, 0, [], ⟨"T", "N", "L"⟩⟩ (fun _ => (0 : ℚ))
        (fun _ _ => Except.error ⟨"E", "m"⟩) 0 []).data
      = (fetchHotProducts ⟨true, 10, 5, 0, 0, [], ⟨"T", "N", "L"⟩⟩ (fun _ => (0 : ℚ))
        (fun _ _ => Except.error ⟨"E", "m"⟩) 1 []).data := by
  refine ⟨⟨by decide, rfl⟩, ?_⟩
  exact (c7_shuffle_deterministic (fun _ => (0 : ℚ)) _ _ _ 0 1 [] []
    (by decide) rfl).2

/-- Claim C9: every raised failure is mapped to exactly one of three
kinds by the ordered checks (abort → timeout, transport failure →
network, anything else → loading); the produced error carries only the
fixed configuration-supplied message for the selected kind, and two
failures of the same kind are indistinguishable in the output (no
further detail of the original failure is exposed). -/
theorem c9_error_classification (msgs : ErrorMessages) (e : JsError) :
    ((handleError msgs e).name = "Error" ∧
      (handleError msgs e).message =
        (match classifyError e with
          | ErrKind.timeout => msgs.TIMEOUT_ERROR
          | ErrKind.network => msgs.NETWORK_ERROR
          | ErrKind.loading => msgs.LOADING_ERROR)) ∧
    (e.name = "AbortError" → classifyError e = ErrKind.timeout) ∧
    (e.name ≠ "AbortError" → msgContains e.message "Failed to fetch" = true →
      classifyError e = ErrKind.network) ∧
    (e.name ≠ "AbortError" → msgContains e.message "Failed to fetch" = false →
      classifyError e = ErrKind.loading) ∧
    (∀ e2 : JsError, classifyError e2 = classifyError e →
      handleError msgs e2 = handleError msgs e) := by
  refine ⟨?_, ?_, ?_, ?_, ?_⟩
  · rw [handleError_eq]
    exact ⟨rfl, rfl⟩
  · intro h; simp [classifyError, h]
  · intro h1 h2; simp [classifyError, h1, h2]
  · intro h1 h2; simp [classifyError, h1, h2]
  · intro e2 h
    rw [handleError_eq, handleError_eq, h]

/-- Witness for C9 at a concrete input: an abort error whose message
even contains "Failed to fetch" is still classified as a timeout (the
checks are ordered), and the output carries the configured message. -/
theorem c9_witness :
    handleError ⟨"T", "N", "L"⟩ ⟨"AbortError", "Failed to fetch x"⟩
        = ⟨"Error", "T"⟩ ∧
    classifyError ⟨"AbortError", "Failed to fetch x"⟩ = ErrKind.timeout := by
  have h := c9_error_classification ⟨"T", "N", "L"⟩ ⟨"AbortError", "Failed to fetch x"⟩
  have hk : classifyError ⟨"AbortError", "Failed to fetch x"⟩ = ErrKind.timeout :=
    h.2.1 (by decide)
  refine ⟨?_, hk⟩
  have h1 := h.1
  rw [hk] at h1
  obtain ⟨hn, hm⟩ := h1
  cases he : handleError ⟨"T", "N", "L"⟩ ⟨"AbortError", "Failed to fetch x"⟩
  rw [he] at hn hm
  simp at hn hm
  rw [hn, hm]

/-- Claim C2: against an upstream failing on every attempt,
`fetchWithRetry` issues exactly `RETRY_COUNT + 1` attempts, waits
`RETRY_DELAY * (k + 1)` before the retry following the k-th failure
(k from 0), and propagates the last failure; the caller of
`fetchProducts` for a direct (non-"Hot") category then observes the
classified error after exactly `RETRY_COUNT + 1` attempts. -/
theorem c2_retry_exhaustion (cfg : Config) (frac : Int → ℚ)
    (u : String → Nat → Except JsError (List ProductRecord))
    (now : Int) (c : Cache) (endpoint : String) (errs : Nat → JsError)
    (hu : ∀ k, u endpoint k = Except.error (errs k))
    (hend : endpoint ≠ "Hot")
    (hmiss : cacheLookupFresh cfg now c endpoint = none) :
    fetchWithRetry cfg (u endpoint) 0 =
      ⟨Except.error (errs cfg.retryCount), cfg.retryCount + 1,
        (List.range cfg.retryCount).map (fun k => cfg.retryDelay * (k + 1))⟩ ∧
    (fetchProducts cfg frac u now c endpoint).result
      = Except.error (handleError cfg.msgs (errs cfg.retryCount)) ∧
    (fetchProducts cfg frac u now c endpoint).netAttempts = cfg.retryCount + 1 := by
  have hfwr : fetchWithRetry cfg (u endpoint) 0 =
      ⟨Except.error (errs cfg.retryCount), cfg.retryCount + 1,
        (List.range cfg.retryCount).map (fun k => cfg.retryDelay * (k + 1))⟩ := by
    unfold fetchWithRetry
    rw [fwrGo_allfail cfg (u endpoint) errs hu (cfg.retryCount - 0) 0]
    have h1 : cfg.retryCount - 0 = cfg.retryCount := by omega
    rw [h1]
    have h2 : 0 + cfg.retryCount = cfg.retryCount := by omega
    rw [h2]
    refine congrArg (fun b => RetryResult.mk (Except.error (errs cfg.retryCount))
      (cfg.retryCount + 1) b) ?_
    apply List.map_congr_left
    intro k _
    have : 0 + k + 1 = k + 1 := by omega
    rw [this]
  have hfp : fetchProducts cfg frac u now c endpoint
      = fetchCategory cfg u now c endpoint := by
    unfold fetchProducts
    rw [hmiss]
    simp [hend]
  have hfc : fetchCategory cfg u now c endpoint =
      ⟨Except.error (handleError cfg.msgs (errs cfg.retryCount)), c,
        cfg.retryCount + 1⟩ := by
    unfold fetchCategory
    rw [hmiss, hfwr]
  exact ⟨hfwr, by rw [hfp, hfc], by rw [hfp, hfc]⟩

/-- Witness for C2 at a concrete input: two configured retries and an
always-failing upstream give three attempts, delays `[100, 200]`, and a
classified (loading) error from `fetchProducts`. -/
theorem c2_witness :
    ((∀ k : Nat, (fun (_ : String) (_ : Nat) =>
        (Except.error ⟨"Error", "HTTP 500"⟩ :
          Except JsError (List ProductRecord))) "Shoes" k
        = Except.error ⟨"Error", "HTTP 500"⟩) ∧
      ("Shoes" : String) ≠ "Hot" ∧
      cacheLookupFresh ⟨true, 10, 5, 2, 100, [], ⟨"T", "N", "L"⟩⟩ 0 [] "Shoes"
        = none) ∧
    (fetchProducts ⟨true, 10, 5, 2, 100, [], ⟨"T", "N", "L"⟩⟩ (fun _ => (0 : ℚ))
        (fun _ _ => Except.error ⟨"Error", "HTTP 500"⟩) 0 [] "Shoes").netAttempts
      = 3 := by
  refine ⟨⟨fun _ => rfl, by decide, rfl⟩, ?_⟩
  exact (c2_retry_exhaustion ⟨true, 10, 5, 2, 100, [], ⟨"T", "N", "L"⟩⟩
    (fun _ => (0 : ℚ)) (fun _ _ => Except.error ⟨"Error", "HTTP 500"⟩) 0 [] "Shoes"
    (fun _ => ⟨"Error", "HTTP 500"⟩) (fun _ => rfl) (by decide) rfl).2.2

/-- Claim C8 counterexample: the failure raised after exhausting retries
is the last attempt's raw failure, and for an upstream failing with an
HTTP-status error the classifier then yields the LOADING message, not
the NETWORK one — so exhausted retries do not in general surface as
`NetworkError`. -/
theorem c8_counterexample :
    (fetchWithRetry ⟨true, 10, 5, 2, 100, [], ⟨"T", "N", "L"⟩⟩
        (fun _ => Except.error ⟨"Error", "HTTP 500: Internal Server Error"⟩)
        0).result
      = Except.error ⟨"Error", "HTTP 500: Internal Server Error"⟩ ∧
    handleError ⟨"T", "N", "L"⟩ ⟨"Error", "HTTP 500: Internal Server Error"⟩
      = ⟨"Error", "L"⟩ ∧
    ("L" : String) ≠ "N" := by
  refine ⟨rfl, ?_, by decide⟩
  have h1 : (⟨"Error", "HTTP 500: Internal Server Error"⟩ : JsError).name
      ≠ "AbortError" := by decide
  have h2 : msgContains
      (⟨"Error", "HTTP 500: Internal Server Error"⟩ : JsError).message
      "Failed to fetch" = false := by decide
  simp [handleError, h1, h2]

/-- Claim C8 as amended: after exhausting retries `fetchWithRetry`
raises the last attempt's failure as-is; that failure surfaces as
`NetworkError` (the configured NETWORK message) exactly when it is a
transport failure — not an abort, and its message contains
"Failed to fetch". -/
theorem c8_amended_raw_propagation (cfg : Config)
    (u : Nat → Except JsError (List ProductRecord)) (errs : Nat → JsError)
    (hu : ∀ k, u k = Except.error (errs k)) :
    (fetchWithRetry cfg u 0).result = Except.error (errs cfg.retryCount) ∧
    (classifyError (errs cfg.retryCount) = ErrKind.network ↔
      (errs cfg.retryCount).name ≠ "AbortError" ∧
      msgContains (errs cfg.retryCount).message "Failed to fetch" = true) ∧
    (classifyError (errs cfg.retryCount) = ErrKind.network →
      handleError cfg.msgs (errs cfg.retryCount)
        = ⟨"Error", cfg.msgs.NETWORK_ERROR⟩) := by
  refine ⟨?_, ?_, ?_⟩
  · unfold fetchWithRetry
    rw [fwrGo_allfail cfg u errs hu (cfg.retryCount - 0) 0]
    have h1 : cfg.retryCount - 0 = cfg.retryCount := by omega
    have h2 : 0 + (cfg.retryCount - 0) = cfg.retryCount := by omega
    rw [h2]
  · unfold classifyError
    by_cases h1 : (errs cfg.retryCount).name = "AbortError" <;>
      by_cases h2 : msgContains (errs cfg.retryCount).message "Failed to fetch" <;>
        simp [h1, h2]
  · intro h
    rw [handleError_eq, h]

/-- Witness for C8's amended claim at a concrete input: an upstream
failing every attempt with a transport failure surfaces as the NETWORK
message. -/
theorem c8_amended_witness :
    ((∀ k : Nat, (fun (_ : Nat) =>
        (Except.error ⟨"TypeError", "Failed to fetch"⟩ :
          Except JsError (List ProductRecord))) k
        = Except.error ⟨"TypeError", "Failed to fetch"⟩)) ∧
    (fetchWithRetry ⟨true, 10, 5, 1, 100, [], ⟨"T", "N", "L"⟩⟩
        (fun _ => Except.error ⟨"TypeError", "Failed to fetch"⟩) 0).result
      = Except.error ⟨"TypeError", "Failed to fetch"⟩ ∧
    handleError ⟨"T", "N", "L"⟩ ⟨"TypeError", "Failed to fetch"⟩
      = ⟨"Error", "N"⟩ := by
  have h := c8_amended_raw_propagation ⟨true, 10, 5, 1, 100, [], ⟨"T", "N", "L"⟩⟩
    (fun _ => Except.error ⟨"TypeError", "Failed to fetch"⟩)
    (fun _ => ⟨"TypeError", "Failed to fetch"⟩) (fun _ => rfl)
  refine ⟨fun _ => rfl, h.1, ?_⟩
  have hk : classifyError ⟨"TypeError", "Failed to fetch"⟩ = ErrKind.network := by
    have hn : (⟨"TypeError", "Failed to fetch"⟩ : JsError).name ≠ "AbortError" := by
      decide
    have hm : msgContains (⟨"TypeError", "Failed to fetch"⟩ : JsError).message
        "Failed to fetch" = true := by decide
    simp [classifyError, hn, hm]
  exact h.2.2 hk

/-- Claim C5: with caching enabled and an entry stored for the key with
timestamp `T`, `fetchProducts` returns the cached data with no network
activity (unchanged cache, zero upstream attempts) exactly when
`now - T < EXPIRY_TIME`; once `now - T ≥ EXPIRY_TIME` the entry is not
used as a hit and a network fetch (for a direct category: at least one
upstream attempt) or the Hot aggregation is performed.  Staleness is
evaluated only inside this read — the model contains no other freshness
check. -/
theorem c5_cache_freshness (cfg : Config) (frac : Int → ℚ)
    (u : String → Nat → Except JsError (List ProductRecord))
    (now : Int) (c : Cache) (key : String) (e : CacheEntry)
    (hen : cfg.cacheEnabled = true) (hget : mapGet c key = some e) :
    (now - e.timestamp < cfg.expiryTime →
      fetchProducts cfg frac u now c key = ⟨Except.ok e.data, c, 0⟩) ∧
    (cfg.expiryTime ≤ now - e.timestamp →
      cacheLookupFresh cfg now c key = none ∧
      (key ≠ "Hot" →
        (fetchProducts cfg frac u now c key).netAttempts
            = (fetchWithRetry cfg (u key) 0).attempts ∧
        1 ≤ (fetchProducts cfg frac u now c key).netAttempts) ∧
      (key = "Hot" →
        (fetchProducts cfg frac u now c key).result
            = Except.ok (fetchHotProducts cfg frac u now c).data)) := by
  constructor
  · intro hfresh
    have hlook : cacheLookupFresh cfg now c key = some e.data := by
      unfold cacheLookupFresh
      rw [if_pos hen, hget]
      show (if now - e.timestamp < cfg.expiryTime then some e.data else none)
        = some e.data
      rw [if_pos hfresh]
    unfold fetchProducts
    rw [hlook]
  · intro hstale
    have hlook : cacheLookupFresh cfg now c key = none := by
      unfold cacheLookupFresh
      rw [if_pos hen, hget]
      show (if now - e.timestamp < cfg.expiryTime then some e.data else none)
        = none
      rw [if_neg (by omega)]
    refine ⟨hlook, ?_, ?_⟩
    · intro hkey
      have hfp : fetchProducts cfg frac u now c key
          = fetchCategory cfg u now c key := by
        unfold fetchProducts
        rw [hlook]
        simp [hkey]
      rw [hfp]
      unfold fetchCategory
      rw [hlook]
      cases hres : (fetchWithRetry cfg (u key) 0).result <;>
        simp [hres, one_le_fetchWithRetry_attempts]
    · intro hkey
      unfold fetchProducts
      rw [hlook]
      simp [hkey]

/-- Witness for C5 at a concrete input: key "A" cached at time 0 with
expiry 10 is a hit at `now = 5`. -/
theorem c5_witness :
    ((⟨true, 10, 5, 2, 100, [], ⟨"T", "N", "L"⟩⟩ : Config).cacheEnabled = true ∧
      mapGet [("A", ⟨[], 0⟩)] "A" = some ⟨[], 0⟩ ∧
      (5 : Int) - (0 : Int) < (10 : Int)) ∧
    fetchProducts ⟨true, 10, 5, 2, 100, [], ⟨"T", "N", "L"⟩⟩ (fun _ => (0 : ℚ))
        (fun _ _ => Except.error ⟨"E", "m"⟩) 5 [("A", ⟨[], 0⟩)] "A"
      = ⟨Except.ok [], [("A", ⟨[], 0⟩)], 0⟩ := by
  refine ⟨⟨rfl, rfl, by decide⟩, ?_⟩
  exact (c5_cache_freshness ⟨true, 10, 5, 2, 100, [], ⟨"T", "N", "L"⟩⟩
    (fun _ => (0 : ℚ)) (fun _ _ => Except.error ⟨"E", "m"⟩) 5 [("A", ⟨[], 0⟩)]
    "A" ⟨[], 0⟩ rfl rfl).1 (by decide)

theorem updateCache_inv (cfg : Config) (hpos : 1 ≤ cfg.maxSize) (now : Int)
    (c : Cache) (k : String) (d : List ProductRecord)
    (h : (cacheKeys c).Nodup ∧ c.length ≤ cfg.maxSize) :
    (cacheKeys (updateCache cfg now c k d)).Nodup ∧
      (updateCache cfg now c k d).length ≤ cfg.maxSize := by
  refine ⟨nodup_cacheKeys_updateCache cfg now c k d h.1, ?_⟩
  unfold updateCache
  by_cases hc : cfg.maxSize ≤ c.length
  · rw [if_pos hc]
    cases c with
    | nil => simp at hc; omega
    | cons p rest =>
      have hfk : firstKey (p :: rest) = some p.1 := rfl
      rw [hfk]
      show (mapSet (mapDelete (p :: rest) p.1) k ⟨d, now⟩).length ≤ cfg.maxSize
      rw [mapDelete_cons_self p rest, length_mapSet]
      have hlen : rest.length + 1 ≤ cfg.maxSize := h.2
      by_cases hh : mapHas rest k <;> simp [hh] <;> omega
  · rw [if_neg hc]
    show (mapSet c k ⟨d, now⟩).length ≤ cfg.maxSize
    rw [length_mapSet]
    by_cases hh : mapHas c k <;> simp [hh] <;> omega

theorem applyPuts_inv (cfg : Config) (hpos : 1 ≤ cfg.maxSize) :
    ∀ (ops : List (String × List ProductRecord × Int)) (c : Cache),
      (cacheKeys c).Nodup ∧ c.length ≤ cfg.maxSize →
      (cacheKeys (applyPuts cfg ops c)).Nodup ∧
        (applyPuts cfg ops c).length ≤ cfg.maxSize := by
  intro ops
  induction ops with
  | nil => intro c h; exact h
  | cons op rest ih =>
    intro c h
    obtain ⟨k, d, t⟩ := op
    exact ih (updateCache cfg t c k d) (updateCache_inv cfg hpos t c k d h)

/-- Claim C3: starting from an empty cache, the number of entries never
exceeds `MAX_SIZE` (a positive integer per the configuration contract)
after any sequence of puts; a put issued while the cache holds at least
`MAX_SIZE` entries removes exactly one entry before inserting — the
earliest-inserted one (the head of the insertion-ordered map) — and an
overwrite of an existing key keeps the key order (hence eviction
priority) unchanged; reads do not mutate the cache at all in this model,
so hits cannot refresh an entry's priority. -/
theorem c3_cache_bound (cfg : Config) (hpos : 1 ≤ cfg.maxSize) :
    (∀ ops : List (String × List ProductRecord × Int),
      (applyPuts cfg ops []).length ≤ cfg.maxSize) ∧
    (∀ (p : String × CacheEntry) (rest : Cache) (k : String)
        (d : List ProductRecord) (t : Int),
      cfg.maxSize ≤ (p :: rest).length →
      updateCache cfg t (p :: rest) k d = mapSet rest k ⟨d, t⟩ ∧
      (mapDelete (p :: rest) p.1).length + 1 = (p :: rest).length) ∧
    (∀ (c : Cache) (k : String) (v : CacheEntry), mapHas c k = true →
      cacheKeys (mapSet c k v) = cacheKeys c) := by
  refine ⟨?_, ?_, ?_⟩
  · intro ops
    exact (applyPuts_inv cfg hpos ops [] ⟨List.nodup_nil, by simp⟩).2
  · intro p rest k d t hc
    constructor
    · unfold updateCache
      rw [if_pos hc]
      have hfk : firstKey (p :: rest) = some p.1 := rfl
      rw [hfk]
      show mapSet (mapDelete (p :: rest) p.1) k ⟨d, t⟩ = mapSet rest k ⟨d, t⟩
      rw [mapDelete_cons_self p rest]
    · rw [mapDelete_cons_self p rest]
      simp
  · intro c k v h
    exact cacheKeys_mapSet_of_has c k v h

/-- Witness for C3 at a concrete input: with `MAX_SIZE = 2`, four puts of
distinct keys leave at most two entries. -/
theorem c3_witness :
    1 ≤ (⟨true, 10, 2, 0, 0, [], ⟨"T", "N", "L"⟩⟩ : Config).maxSize ∧
    (applyPuts ⟨true, 10, 2, 0, 0, [], ⟨"T", "N", "L"⟩⟩
        [("a", [], 0), ("b", [], 1), ("c", [], 2), ("d", [], 3)] []).length
      ≤ (⟨true, 10, 2, 0, 0, [], ⟨"T", "N", "L"⟩⟩ : Config).maxSize := by
  refine ⟨by decide, ?_⟩
  exact (c3_cache_bound ⟨true, 10, 2, 0, 0, [], ⟨"T", "N", "L"⟩⟩ (by decide)).1
    [("a", [], 0), ("b", [], 1), ("c", [], 2), ("d", [], 3)]

/-- Claim C10: a put of an already-present key into a cache at exactly
`MAX_SIZE` entries still evicts the earliest-inserted entry first.  When
that earliest entry has a different key, an unrelated entry is removed
and the cache shrinks to `MAX_SIZE - 1` entries (the put key is
overwritten in place); when the earliest entry is the put key itself, it
is deleted and re-appended, ending up in the newest eviction position. -/
theorem c10_put_existing_at_capacity (cfg : Config) (p : String × CacheEntry)
    (rest : Cache) (k : String) (d : List ProductRecord) (t : Int)
    (hnd : (cacheKeys (p :: rest)).Nodup)
    (hlen : (p :: rest).length = cfg.maxSize)
    (hhas : mapHas (p :: rest) k = true) :
    (p.1 ≠ k →
      (updateCache cfg t (p :: rest) k d).length = cfg.maxSize - 1 ∧
      mapGet (updateCache cfg t (p :: rest) k d) p.1 = none ∧
      mapGet (updateCache cfg t (p :: rest) k d) k = some ⟨d, t⟩ ∧
      cacheKeys (updateCache cfg t (p :: rest) k d) = cacheKeys rest) ∧
    (p.1 = k →
      updateCache cfg t (p :: rest) k d = rest ++ [(k, ⟨d, t⟩)]) := by
  have hc : cfg.maxSize ≤ (p :: rest).length := le_of_eq hlen.symm
  have huc : updateCache cfg t (p :: rest) k d = mapSet rest k ⟨d, t⟩ := by
    unfold updateCache
    rw [if_pos hc]
    have hfk : firstKey (p :: rest) = some p.1 := rfl
    rw [hfk]
    show mapSet (mapDelete (p :: rest) p.1) k ⟨d, t⟩ = mapSet rest k ⟨d, t⟩
    rw [mapDelete_cons_self p rest]
  have hheadnotin : p.1 ∉ cacheKeys rest := by
    have := hnd
    simp only [cacheKeys, List.map_cons, List.nodup_cons] at this
    exact this.1
  constructor
  · intro hpk
    have hkrest : k ∈ cacheKeys rest := by
      have hk : k ∈ cacheKeys (p :: rest) := (mapHas_iff_mem_keys _ k).mp hhas
      simp only [cacheKeys, List.map_cons, List.mem_cons] at hk
      rcases hk with hk | hk
      · exact absurd hk.symm hpk
      · exact hk
    have hhasrest : mapHas rest k = true := (mapHas_iff_mem_keys rest k).mpr hkrest
    refine ⟨?_, ?_, ?_, ?_⟩
    · rw [huc, length_mapSet, if_pos hhasrest]
      simp only [List.length_cons] at hlen
      omega
    · rw [huc, mapGet_mapSet_ne rest k ⟨d, t⟩ p.1 hpk]
      unfold mapGet
      rw [find?_eq_none_of_not_has rest p.1
        (fun h => hheadnotin ((mapHas_iff_mem_keys rest p.1).mp h))]
      rfl
    · rw [huc]
      exact mapGet_mapSet_self rest k ⟨d, t⟩
    · rw [huc]
      exact cacheKeys_mapSet_of_has rest k ⟨d, t⟩ hhasrest
  · intro hpk
    have hnothas : ¬ mapHas rest k = true := by
      intro h
      exact hheadnotin (hpk ▸ (mapHas_iff_mem_keys rest k).mp h)
    rw [huc]
    unfold mapSet
    rw [if_neg hnothas]

/-- Witness for C10 at a concrete input: cache `[a, b]` at capacity 2;
putting key "b" evicts "a" and leaves one entry; in cache `[a, b]`
putting key "a" re-inserts "a" at the newest position. -/
theorem c10_witness :
    ((cacheKeys [("a", (⟨[], 0⟩ : CacheEntry)), ("b", ⟨[], 1⟩)]).Nodup ∧
      ([("a", (⟨[], 0⟩ : CacheEntry)), ("b", ⟨[], 1⟩)]).length
        = (⟨true, 10, 2, 0, 0, [], ⟨"T", "N", "L"⟩⟩ : Config).maxSize ∧
      mapHas [("a", (⟨[], 0⟩ : CacheEntry)), ("b", ⟨[], 1⟩)] "b" = true) ∧
    (updateCache ⟨true, 10, 2, 0, 0, [], ⟨"T", "N", "L"⟩⟩ 5
        [("a", ⟨[], 0⟩), ("b", ⟨[], 1⟩)] "b" []).length = 1 ∧
    updateCache ⟨true, 10, 2, 0, 0, [], ⟨"T", "N", "L"⟩⟩ 5
        [("a", ⟨[], 0⟩), ("b", ⟨[], 1⟩)] "a" []
      = [("b", ⟨[], 1⟩), ("a", ⟨[], 5⟩)] := by
  refine ⟨⟨by decide, by decide, by decide⟩, ?_, ?_⟩
  · have h := (c10_put_existing_at_capacity
      ⟨true, 10, 2, 0, 0, [], ⟨"T", "N", "L"⟩⟩ ("a", ⟨[], 0⟩) [("b", ⟨[], 1⟩)]
      "b" [] 5 (by decide) (by decide) (by decide)).1 (by decide)
    exact h.1
  · have h := (c10_put_existing_at_capacity
      ⟨true, 10, 2, 0, 0, [], ⟨"T", "N", "L"⟩⟩ ("a", ⟨[], 0⟩) [("b", ⟨[], 1⟩)]
      "a" [] 5 (by decide) (by decide) (by decide)).2 rfl
    exact h

/-- The contribution of one sub-category to the Hot merge: the validated
body of a successful fetch, or `[]` when the fetch fails (the failure is
absorbed by the fan-out's catch). -/
def hotContribution (cfg : Config)
    (u : String → Nat → Except JsError (List ProductRecord)) (e : String) :
    List ProductRecord :=
  match (fetchWithRetry cfg (u e) 0).result with
  | Except.ok data => filterValid data
  | Except.error _ => []

theorem hotFanout_results (cfg : Config)
    (u : String → Nat → Except JsError (List ProductRecord)) (now : Int) :
    ∀ (es : List String) (c : Cache),
      es.Nodup → (cacheKeys c).Nodup →
      (∀ e ∈ es, cacheLookupFresh cfg now c e = none) →
      (hotFanout cfg u now c es).results = es.map (hotContribution cfg u) := by
  intro es
  induction es with
  | nil => intro c _ _ _; rfl
  | cons e es ih =>
    intro c hnd hkeys hmiss
    have hlook : cacheLookupFresh cfg now c e = none :=
      hmiss e (List.mem_cons_self e es)
    have hnde : e ∉ es := (List.nodup_cons.mp hnd).1
    have hndes : es.Nodup := (List.nodup_cons.mp hnd).2
    have hres1 : (hotFanout cfg u now c (e :: es)).results
        = (match (fetchCategory cfg u now c e).result with
            | Except.ok l => l
            | Except.error _ => [])
          :: (hotFanout cfg u now (fetchCategory cfg u now c e).cache es).results :=
      rfl
    rw [hres1, List.map_cons]
    cases hres : (fetchWithRetry cfg (u e) 0).result with
    | ok data =>
      have hfc : fetchCategory cfg u now c e =
          ⟨Except.ok (filterValid data),
            (if cfg.cacheEnabled then
              updateCache cfg now c e (filterValid data) else c),
            (fetchWithRetry cfg (u e) 0).attempts⟩ := by
        unfold fetchCategory
        rw [hlook]
        simp only [hres]
      have hcontrib : hotContribution cfg u e = filterValid data := by
        unfold hotContribution
        rw [hres]
      rw [hfc, hcontrib]
      refine congrArg (fun l => filterValid data :: l) ?_
      show (hotFanout cfg u now
          (if cfg.cacheEnabled then
            updateCache cfg now c e (filterValid data) else c) es).results
        = es.map (hotContribution cfg u)
      by_cases hen : cfg.cacheEnabled
      · rw [if_pos hen]
        apply ih _ hndes
          (nodup_cacheKeys_updateCache cfg now c e (filterValid data) hkeys)
        intro y hy
        exact cacheLookupFresh_updateCache_ne cfg now now c e (filterValid data) y
          hkeys (fun hye => hnde (hye ▸ hy)) (hmiss y (List.mem_cons_of_mem e hy))
      · rw [if_neg hen]
        exact ih c hndes hkeys (fun y hy => hmiss y (List.mem_cons_of_mem e hy))
    | error err =>
      have hfc : fetchCategory cfg u now c e =
          ⟨Except.error (handleError cfg.msgs err), c,
            (fetchWithRetry cfg (u e) 0).attempts⟩ := by
        unfold fetchCategory
        rw [hlook]
        simp only [hres]
      have hcontrib : hotContribution cfg u e = [] := by
        unfold hotContribution
        rw [hres]
      rw [hfc, hcontrib]
      exact congrArg (fun l => [] :: l)
        (ih c hndes hkeys (fun y hy => hmiss y (List.mem_cons_of_mem e hy)))

/-- Claim C1: with a non-empty category list whose non-"Hot" endpoints
are distinct (and none literally "Hot", which would recurse in the
source) and no fresh cache entries for "Hot" or the sub-endpoints,
`fetchProducts("Hot")` does not raise: it returns the shuffle of the
concatenation, in configured category order, of each sub-category's
validated fetch result, with every failing sub-fetch contributing `[]`;
in particular if every sub-fetch fails the result is `ok []`, not an
error. -/
theorem c1_hot_partial_failure_isolation (cfg : Config) (frac : Int → ℚ)
    (u : String → Nat → Except JsError (List ProductRecord))
    (now : Int) (c : Cache)
    (_hne : cfg.categories ≠ [])
    (_hnotHot : "Hot" ∉ otherCategories cfg)
    (hnodup : (otherCategories cfg).Nodup)
    (hkeys : (cacheKeys c).Nodup)
    (hmissHot : cacheLookupFresh cfg now c "Hot" = none)
    (hmiss : ∀ e ∈ otherCategories cfg, cacheLookupFresh cfg now c e = none) :
    (fetchProducts cfg frac u now c "Hot").result
      = Except.ok (seededShuffle frac
          ((otherCategories cfg).map (hotContribution cfg u)).flatten
          (Int.fdiv now WINDOW_MS)) ∧
    ((∀ e ∈ otherCategories cfg, ∃ err,
        (fetchWithRetry cfg (u e) 0).result = Except.error err) →
      (fetchProducts cfg frac u now c "Hot").result = Except.ok []) := by
  have hmain : (fetchProducts cfg frac u now c "Hot").result
      = Except.ok (seededShuffle frac
          ((otherCategories cfg).map (hotContribution cfg u)).flatten
          (Int.fdiv now WINDOW_MS)) := by
    have hfp : (fetchProducts cfg frac u now c "Hot").result
        = Except.ok (fetchHotProducts cfg frac u now c).data := by
      unfold fetchProducts
      rw [hmissHot]
      simp
    rw [hfp]
    unfold fetchHotProducts
    by_cases hempty : (otherCategories cfg).isEmpty
    · have : otherCategories cfg = [] := List.isEmpty_iff.mp hempty
      rw [if_pos hempty]
      rw [this]
      rfl
    · rw [if_neg hempty]
      show Except.ok (seededShuffle frac
          (hotFanout cfg u now c (otherCategories cfg)).results.flatten
          (Int.fdiv now WINDOW_MS)) = _
      rw [hotFanout_results cfg u now (otherCategories cfg) c hnodup hkeys hmiss]
  refine ⟨hmain, ?_⟩
  intro hfail
  rw [hmain]
  have hnil : ((otherCategories cfg).map (hotContribution cfg u)).flatten = [] := by
    rw [List.flatten_eq_nil_iff]
    intro l hl
    rw [List.mem_map] at hl
    obtain ⟨e, he, rfl⟩ := hl
    obtain ⟨err, herr⟩ := hfail e he
    unfold hotContribution
    rw [herr]
  rw [hnil]
  rfl

/-- Witness for C1 at a concrete input: two sub-categories, both of whose
fetches fail on every attempt, give `ok []` from `fetchProducts("Hot")`. -/
theorem c1_witness :
    ((⟨true, 10, 5, 1, 100, [⟨"A", "a"⟩, ⟨"B", "b"⟩], ⟨"T", "N", "L"⟩⟩ :
        Config).categories ≠ [] ∧
      "Hot" ∉ otherCategories
        ⟨true, 10, 5, 1, 100, [⟨"A", "a"⟩, ⟨"B", "b"⟩], ⟨"T", "N", "L"⟩⟩ ∧
      (otherCategories
        ⟨true, 10, 5, 1, 100, [⟨"A", "a"⟩, ⟨"B", "b"⟩], ⟨"T", "N", "L"⟩⟩).Nodup ∧
      (cacheKeys []).Nodup) ∧
    (fetchProducts ⟨true, 10, 5, 1, 100, [⟨"A", "a"⟩, ⟨"B", "b"⟩], ⟨"T", "N", "L"⟩⟩
        (fun _ => (0 : ℚ)) (fun _ _ => Except.error ⟨"E", "m"⟩) 0 [] "Hot").result
      = Except.ok [] := by
  refine ⟨⟨by decide, by decide, by decide, by decide⟩, ?_⟩
  exact (c1_hot_partial_failure_isolation
    ⟨true, 10, 5, 1, 100, [⟨"A", "a"⟩, ⟨"B", "b"⟩], ⟨"T", "N", "L"⟩⟩
    (fun _ => (0 : ℚ)) (fun _ _ => Except.error ⟨"E", "m"⟩) 0 []
    (by decide) (by decide) (by decide) (by decide) rfl
    (fun _ _ => rfl)).2 (fun e _ => ⟨⟨"E", "m"⟩, rfl⟩)
